import Mathlib

/-!
Shallow embedding of the News Collector subsystem (`bot/rss_collector.py`).

Modelling conventions:
* Timestamps are absolute instants in epoch seconds (`Int`).  A feed entry's
  `published_parsed` / `updated_parsed` struct, once converted with
  `datetime(*s[:6], tzinfo=utc)`, denotes such an instant.
* `datetime.now()` is modelled by a clock oracle `clock : Nat → Int`; the
  k-th call of `now` during a run returns `clock k`.  The process state
  carries the tick counter, mirroring the fact that the source samples the
  wall clock anew inside every `_is_recent` call.
* The two module-level caches `_FEED_CACHE` and `_ARTICLE_CACHE` are
  explicit association lists threaded through every operation.
* `feedparser.parse` never raises (it degrades to an entry-less document),
  so the primary model's feed capability is total; `newspaper`'s
  download/parse may raise, so the article capability returns `Option`
  (`none` = exception, caught inside `get_article_text`).
* Python dicts used as article records are association lists
  `List (String × String)` whose key list mirrors the literal dict keys.
-/

/-- Two-digit zero padding, as `strftime` does for `%m %d %H %M`. -/
def pad2 (n : Nat) : String :=
  if n < 10 then "0" ++ toString n else toString n

/-- Convert a day count relative to 1970-01-01 to a civil (year, month, day)
triple, the standard era-based algorithm used by calendar libraries. -/
def civilFromDays (z0 : Int) : Int × Nat × Nat :=
  let z := z0 + 719468
  let era := z.fdiv 146097
  let doe := (z - era * 146097).toNat
  let yoe := (doe - doe / 1460 + doe / 36524 - doe / 146096) / 365
  let y := (yoe : Int) + era * 400
  let doy := doe - (365 * yoe + yoe / 4 - yoe / 100)
  let mp := (5 * doy + 2) / 153
  let d := doy - (153 * mp + 2) / 5 + 1
  let m := if mp < 10 then mp + 3 else mp - 9
  (if mp < 10 then y else y + 1, m, d)

/-- Model of `strftime("%Y-%m-%d %H:%M")` on an instant given in seconds (the caller
passes the instant already shifted into the display timezone). -/
def strftimeYMDHM (t : Int) : String :=
  let days := t.fdiv 86400
  let rem := (t - days * 86400).toNat
  let c := civilFromDays days
  toString c.1 ++ "-" ++ pad2 c.2.1 ++ "-" ++ pad2 c.2.2 ++ " " ++
    pad2 (rem / 3600) ++ ":" ++ pad2 (rem % 3600 / 60)

/-- Predicate `leadsList n h` holds when the character list `n` starts the list `h`. -/
def leadsList : List Char → List Char → Bool
  | [], _ => true
  | _ :: _, [] => false
  | a :: as, b :: bs => a == b && leadsList as bs

/-- Substring occurrence on character lists: Python's `needle in hay`. -/
def containsSub (needle : List Char) : List Char → Bool
  | [] => needle.isEmpty
  | c :: t => leadsList needle (c :: t) || containsSub needle t

/-- Python's `needle in hay` on strings. -/
def strContains (hay needle : String) : Bool :=
  containsSub needle.data hay.data

/-- Python's `str.upper` (the ASCII fragment exercised by tickers). -/
def strUpper (s : String) : String :=
  ⟨s.data.map Char.toUpper⟩

/-- One parsed feed item, as `feedparser` hands it to the collector: the
fields the source reads via `entry.get`.  Timestamps are epoch seconds. -/
structure Entry where
  published_parsed : Option Int
  updated_parsed : Option Int
  title : Option String
  summary : Option String
  link : Option String
deriving DecidableEq, Repr

/-- A parsed feed document: an ordered sequence of entries. -/
structure Feed where
  entries : List Entry
deriving DecidableEq, Repr

/-- The external capabilities the collector consumes, plus the clock:
`fetchFeed` models `feedparser.parse` (total: it degrades instead of
raising), `fetchArticle` models newspaper download+parse (`none` =
exception), `clock` models successive `datetime.now()` samples, and
`tzOffset` is the collector's local-timezone offset in seconds used by
`astimezone` before formatting. -/
structure World where
  fetchFeed : String → Feed
  fetchArticle : String → Option String
  clock : Nat → Int
  tzOffset : Int

/-- Mutable process state: the two module-level caches and the clock tick. -/
structure St where
  feedCache : List (String × Feed)
  artCache : List (String × String)
  tick : Nat
deriving DecidableEq, Repr

/-- An article record: a Python dict with string keys and values. -/
abbrev Dict := List (String × String)

/-- Model of `_get_feed`: return the parsed feed, caching results per URL. -/
def get_feed (w : World) (st : St) (url : String) : Feed × St :=
  match st.feedCache.lookup url with
  | some f => (f, st)
  | none =>
    let f := w.fetchFeed url
    (f, { st with feedCache := (url, f) :: st.feedCache })

/-- Model of `_get_article_text`: download article text with caching; `""` for an
empty link; any exception is caught and cached as `""`. -/
def get_article_text (w : World) (st : St) (url : String) : String × St :=
  if url = "" then ("", st)
  else
    match st.artCache.lookup url with
    | some t => (t, st)
    | none =>
      let t := (w.fetchArticle url).getD ""
      (t, { st with artCache := (url, t) :: st.artCache })

/-- Model of `entry.get("published_parsed") or entry.get("updated_parsed")`. -/
def tsOf (e : Entry) : Option Int :=
  e.published_parsed <|> e.updated_parsed

/-- Model of `_is_recent`: `False` for a missing date; otherwise compares the entry
instant against a fresh `datetime.now()` sample minus `delta_hours` hours
(the clock is sampled only on the dated branch, hence the tick bump there). -/
def is_recent (w : World) (entry_date_struct : Option Int) (delta_hours : Int)
    (st : St) : Bool × St :=
  match entry_date_struct with
  | none => (false, st)
  | some t =>
    let now := w.clock st.tick
    (decide (now - delta_hours * 3600 ≤ t), { st with tick := st.tick + 1 })

/-- The dict literal built for each matching entry of `collect_recent_news`
(and of `_collect_recent_from_feed_async`): keys source, date, title, link,
text, with the date rendered in the local timezone. -/
def recentRecord (w : World) (source : String) (e : Entry) (text : String) :
    Dict :=
  [("source", source),
   ("date", match tsOf e with
            | some t => strftimeYMDHM (t + w.tzOffset)
            | none => ""),
   ("title", e.title.getD ""),
   ("link", e.link.getD ""),
   ("text", text)]

/-- The dict literal built for each matching entry of `collect_ticker_news`
(and of `_collect_ticker_from_feed_async`): no date key. -/
def tickerRecord (source : String) (e : Entry) (text : String) : Dict :=
  [("source", source),
   ("title", e.title.getD ""),
   ("link", e.link.getD ""),
   ("text", text)]

/-- The per-entry loop body of `collect_recent_news`, iterated over one
feed's entries: recency check, text resolution, record construction. -/
def recentEntriesLoop (w : World) (hours : Int) (source : String) :
    List Entry → St → List Dict × St
  | [], st => ([], st)
  | e :: rest, st =>
    let r := is_recent w (tsOf e) hours st
    if r.1 then
      let p := get_article_text w r.2 (e.link.getD "")
      let q := recentEntriesLoop w hours source rest p.2
      (recentRecord w source e p.1 :: q.1, q.2)
    else
      recentEntriesLoop w hours source rest r.2

/-- Model of `collect_recent_news`: iterate the registered sources in registration
order, fetch each feed through the cache, filter and resolve its entries,
and extend one flat result list. -/
def collect_recent_news (w : World) (hours : Int) :
    List (String × String) → St → List Dict × St
  | [], st => ([], st)
  | su :: rest, st =>
    let p := get_feed w st su.2
    let q := recentEntriesLoop w hours su.1 p.1.entries p.2
    let r := collect_recent_news w hours rest q.2
    (q.1 ++ r.1, r.2)

/-- The per-entry loop body of `collect_ticker_news`: substring match of the
uppercased ticker against the uppercased `f"{title} {summary}"`. -/
def tickerEntriesLoop (w : World) (ticker_up : String) (source : String) :
    List Entry → St → List Dict × St
  | [], st => ([], st)
  | e :: rest, st =>
    let text_summary := e.title.getD "" ++ " " ++ e.summary.getD ""
    if strContains (strUpper text_summary) ticker_up then
      let p := get_article_text w st (e.link.getD "")
      let q := tickerEntriesLoop w ticker_up source rest p.2
      (tickerRecord source e p.1 :: q.1, q.2)
    else
      tickerEntriesLoop w ticker_up source rest st

/-- The source loop of `collect_ticker_news`, after `ticker_up` has been
computed once. -/
def tickerSourcesLoop (w : World) (ticker_up : String) :
    List (String × String) → St → List Dict × St
  | [], st => ([], st)
  | su :: rest, st =>
    let p := get_feed w st su.2
    let q := tickerEntriesLoop w ticker_up su.1 p.1.entries p.2
    let r := tickerSourcesLoop w ticker_up rest q.2
    (q.1 ++ r.1, r.2)

/-- Model of `collect_ticker_news`: uppercase the ticker once, then scan all
registered sources. -/
def collect_ticker_news (w : World) (reg : List (String × String))
    (ticker : String) (st : St) : List Dict × St :=
  tickerSourcesLoop w (strUpper ticker) reg st

/-- The module's static source registry `RSS_FEEDS` (insertion order of the
Python dict literal). -/
def RSS_FEEDS : List (String × String) :=
  [("РБК Главные новости", "https://static.feed.rbc.ru/rbc/internal/rss.rbc.ru/rbc.ru/mainnews.rss"),
   ("Коммерсантъ — Экономика", "https://www.kommersant.ru/RSS/section-economics.xml"),
   ("ЦБ РФ — Новости", "http://www.cbr.ru/rss/RssNews"),
   ("Banki.ru — Лента", "https://www.banki.ru/news/lenta/?r1=rss&r2=news"),
   ("Finam — Новости компаний", "https://www.finam.ru/analysis/conews/rsspoint/"),
   ("Finam — Новости облигаций", "https://bonds.finam.ru/news/today/rss.asp"),
   ("Moex — Все новости", "https://moex.com/export/news.aspx?cat=100"),
   ("Moex — Главные новости", "https://moex.com/export/news.aspx?cat=101"),
   ("Moex — Итоги торгов", "https://www.moex.com/export/news.aspx?cat=102"),
   ("Moex — Новости листинга", "https://www.moex.com/export/news.aspx?cat=104"),
   ("Moex — Риск-параметры", "https://www.moex.com/export/news.aspx?cat=122"),
   ("Moex — Мероприятия", "https://www.moex.com/export/news.aspx?cat=300"),
   ("ТАСС — Business & Economy", "https://tass.com/rss/v2.xml"),
   ("Profinance — Фондовый рынок", "https://www.profinance.ru/fond.xml"),
   ("Profinance — Экономика", "https://www.profinance.ru/econom.xml")]

/-- The per-source task body of `collect_recent_news_async`
(`_collect_recent_from_feed_async`): fetch the feed through the shared
cache, then run the same per-entry loop (entries handled in feed order,
each awaited before the next). -/
def collect_recent_from_feed_async (w : World) (source url : String)
    (hours : Int) (st : St) : List Dict × St :=
  let p := get_feed w st url
  recentEntriesLoop w hours source p.1.entries p.2

/-- The per-source task body of `collect_ticker_news_async`
(`_collect_ticker_from_feed_async`). -/
def collect_ticker_from_feed_async (w : World) (ticker_up source url : String)
    (st : St) : List Dict × St :=
  let p := get_feed w st url
  tickerEntriesLoop w ticker_up source p.1.entries p.2

/-- Cooperative scheduler for the spawned per-source tasks: `sched` lists
the task indices in the order the event loop completes them; each completed
task transforms the shared state, and its result is recorded under its task
index.  Indices outside the task list are skipped. -/
def runTasksSched {α : Type} (tasks : List (St → α × St)) :
    List Nat → St → List (Nat × α) × St
  | [], st => ([], st)
  | i :: rest, st =>
    match tasks[i]? with
    | none => runTasksSched tasks rest st
    | some tsk =>
      let p := tsk st
      let q := runTasksSched tasks rest p.2
      ((i, p.1) :: q.1, q.2)

/-- Model of `asyncio.gather`: the awaited results are delivered in task order, not
completion order. -/
def gatherAssemble {α : Type} (n : Nat) (done : List (Nat × List α)) :
    List (List α) :=
  (List.range n).map (fun i => (done.lookup i).getD [])

/-- Model of `collect_recent_news_async`: spawn one task per registered source, wait
for all of them, and extend the flat result list in task (= registration)
order. -/
def collect_recent_news_async (w : World) (reg : List (String × String))
    (hours : Int) (sched : List Nat) (st : St) : List Dict × St :=
  let tasks := reg.map (fun su st => collect_recent_from_feed_async w su.1 su.2 hours st)
  let p := runTasksSched tasks sched st
  ((gatherAssemble reg.length p.1).flatten, p.2)

/-- Model of `collect_ticker_news_async`: uppercase the ticker once, spawn one task
per registered source, gather in task order, extend flat. -/
def collect_ticker_news_async (w : World) (reg : List (String × String))
    (ticker : String) (sched : List Nat) (st : St) : List Dict × St :=
  let ticker_up := strUpper ticker
  let tasks := reg.map (fun su st => collect_ticker_from_feed_async w ticker_up su.1 su.2 st)
  let p := runTasksSched tasks sched st
  ((gatherAssemble reg.length p.1).flatten, p.2)

/-!
## Denotation layer

A run's observable outputs are determined by the world together with the
caches at the start of the run: a link's text only ever resolves to its
initial cached value, or else to what the article capability yields, and
likewise for feeds.  The invariant `CacheEvol` ties any reachable state
back to the starting state.
-/

/-- The value `_get_article_text` can ever return for `url` in a run that
started from caches `st0`. -/
def denoteText (w : World) (st0 : St) (url : String) : String :=
  if url = "" then ""
  else
    match st0.artCache.lookup url with
    | some t => t
    | none => (w.fetchArticle url).getD ""

/-- The document `_get_feed` can ever return for `url` in a run that
started from caches `st0`. -/
def denoteFeed (w : World) (st0 : St) (url : String) : Feed :=
  match st0.feedCache.lookup url with
  | some f => f
  | none => w.fetchFeed url

/-- How the caches of a state reachable from `st0` relate to `st0`: cached
values persist, and every cached value agrees with its denotation. -/
structure CacheEvol (w : World) (st0 st : St) : Prop where
  artMono : ∀ u v, st0.artCache.lookup u = some v → st.artCache.lookup u = some v
  artExt : ∀ u v, u ≠ "" → st.artCache.lookup u = some v → v = denoteText w st0 u
  feedMono : ∀ u f, st0.feedCache.lookup u = some f → st.feedCache.lookup u = some f
  feedExt : ∀ u f, st.feedCache.lookup u = some f → f = denoteFeed w st0 u

theorem lookup_cons_eq {K β : Type} [BEq K] [LawfulBEq K] (k : K) (b : β)
    (l : List (K × β)) : ((k, b) :: l).lookup k = some b := by
  simp

theorem lookup_cons_ne {K β : Type} [BEq K] [LawfulBEq K] {a k : K} (b : β)
    (l : List (K × β)) (h : a ≠ k) : ((k, b) :: l).lookup a = l.lookup a := by
  have hb : (a == k) = false := beq_eq_false_iff_ne.mpr h
  simp [List.lookup_cons, hb]

theorem cacheEvol_refl (w : World) (st : St) : CacheEvol w st st := by
  refine ⟨fun u v h => h, fun u v hu h => ?_, fun u f h => h, fun u f h => ?_⟩
  · simp [denoteText, hu, h]
  · simp [denoteFeed, h]

theorem get_article_text_fst {w : World} {st0 st : St} (url : String)
    (h : CacheEvol w st0 st) :
    (get_article_text w st url).1 = denoteText w st0 url := by
  unfold get_article_text
  by_cases hu : url = ""
  · simp [hu, denoteText]
  · simp only [hu, if_false]
    cases hc : st.artCache.lookup url with
    | some t => simpa using h.artExt url t hu hc
    | none =>
      have h0 : st0.artCache.lookup url = none := by
        cases hc0 : st0.artCache.lookup url with
        | none => rfl
        | some v => exact absurd (h.artMono url v hc0) (by simp [hc])
      simp [denoteText, hu, h0, hc]

theorem get_article_text_evol {w : World} {st0 st : St} (url : String)
    (h : CacheEvol w st0 st) :
    CacheEvol w st0 (get_article_text w st url).2 := by
  unfold get_article_text
  by_cases hu : url = ""
  · simpa [hu] using h
  · simp only [hu, if_false]
    cases hc : st.artCache.lookup url with
    | some t => simpa using h
    | none =>
      simp only []
      refine ⟨fun u v h0 => ?_, fun u v hne hl => ?_, h.feedMono, h.feedExt⟩
      · by_cases he : u = url
        · exact absurd (h.artMono u v h0) (by simp [he, hc])
        · simpa [lookup_cons_ne _ _ he] using h.artMono u v h0
      · by_cases he : u = url
        · subst he
          rw [lookup_cons_eq] at hl
          have h0 : st0.artCache.lookup u = none := by
            cases hc0 : st0.artCache.lookup u with
            | none => rfl
            | some x => exact absurd (h.artMono u x hc0) (by simp [hc])
          have hv : v = (w.fetchArticle u).getD "" := (Option.some.inj hl).symm
          simp [denoteText, hne, h0, hv]
        · rw [lookup_cons_ne _ _ he] at hl
          exact h.artExt u v hne hl

theorem get_article_text_feedCache (w : World) (st : St) (url : String) :
    (get_article_text w st url).2.feedCache = st.feedCache := by
  unfold get_article_text
  by_cases hu : url = ""
  · simp [hu]
  · cases hc : st.artCache.lookup url <;> simp [hu, hc]

theorem get_article_text_tick (w : World) (st : St) (url : String) :
    (get_article_text w st url).2.tick = st.tick := by
  unfold get_article_text
  by_cases hu : url = ""
  · simp [hu]
  · cases hc : st.artCache.lookup url <;> simp [hu, hc]

theorem get_feed_fst {w : World} {st0 st : St} (url : String)
    (h : CacheEvol w st0 st) :
    (get_feed w st url).1 = denoteFeed w st0 url := by
  unfold get_feed
  cases hc : st.feedCache.lookup url with
  | some f => simpa using h.feedExt url f hc
  | none =>
    have h0 : st0.feedCache.lookup url = none := by
      cases hc0 : st0.feedCache.lookup url with
      | none => rfl
      | some f => exact absurd (h.feedMono url f hc0) (by simp [hc])
    simp [denoteFeed, h0]

theorem get_feed_evol {w : World} {st0 st : St} (url : String)
    (h : CacheEvol w st0 st) :
    CacheEvol w st0 (get_feed w st url).2 := by
  unfold get_feed
  cases hc : st.feedCache.lookup url with
  | some f => simpa using h
  | none =>
    simp only []
    refine ⟨h.artMono, h.artExt, fun u f h0 => ?_, fun u f hl => ?_⟩
    · by_cases he : u = url
      · exact absurd (h.feedMono u f h0) (by simp [he, hc])
      · simpa [lookup_cons_ne _ _ he] using h.feedMono u f h0
    · by_cases he : u = url
      · subst he
        rw [lookup_cons_eq] at hl
        have h0 : st0.feedCache.lookup u = none := by
          cases hc0 : st0.feedCache.lookup u with
          | none => rfl
          | some x => exact absurd (h.feedMono u x hc0) (by simp [hc])
        have hv : f = w.fetchFeed u := (Option.some.inj hl).symm
        simp [denoteFeed, h0, hv]
      · rw [lookup_cons_ne _ _ he] at hl
        exact h.feedExt u f hl

theorem get_feed_artCache (w : World) (st : St) (url : String) :
    (get_feed w st url).2.artCache = st.artCache := by
  unfold get_feed
  cases hc : st.feedCache.lookup url <;> simp

theorem get_feed_tick (w : World) (st : St) (url : String) :
    (get_feed w st url).2.tick = st.tick := by
  unfold get_feed
  cases hc : st.feedCache.lookup url <;> simp

/-- The recency predicate of the source, with the `datetime.now()` sample
made explicit: keep a dated entry whose instant is at least `now` minus
`hours` hours.  Note the absence of any upper bound. -/
def keepRecent (now hours : Int) (e : Entry) : Bool :=
  match tsOf e with
  | none => false
  | some t => decide (now - hours * 3600 ≤ t)

/-- The ticker predicate of the source: the uppercased ticker occurs in the
uppercased `f"{title} {summary}"`. -/
def keepTicker (ticker_up : String) (e : Entry) : Bool :=
  strContains (strUpper (e.title.getD "" ++ " " ++ e.summary.getD "")) ticker_up

/-- What one source contributes to `Recent` when every `now` sample equals
`now`: its feed's entries, filtered in order, mapped to records. -/
def pureRecentSource (w : World) (st0 : St) (now hours : Int)
    (su : String × String) : List Dict :=
  ((denoteFeed w st0 su.2).entries.filter (keepRecent now hours)).map
    (fun e => recentRecord w su.1 e (denoteText w st0 (e.link.getD "")))

/-- What one source contributes to `ByTicker`. -/
def pureTickerSource (w : World) (st0 : St) (ticker_up : String)
    (su : String × String) : List Dict :=
  ((denoteFeed w st0 su.2).entries.filter (keepTicker ticker_up)).map
    (fun e => tickerRecord su.1 e (denoteText w st0 (e.link.getD "")))

theorem cacheEvol_tick {w : World} {st0 st : St} (k : Nat)
    (h : CacheEvol w st0 st) : CacheEvol w st0 { st with tick := k } :=
  ⟨h.artMono, h.artExt, h.feedMono, h.feedExt⟩

theorem is_recent_evol {w : World} {st0 st : St} (d : Option Int) (hours : Int)
    (h : CacheEvol w st0 st) : CacheEvol w st0 (is_recent w d hours st).2 := by
  cases d with
  | none => exact h
  | some t => exact cacheEvol_tick _ h

theorem recentEntriesLoop_spec {w : World} {st0 : St} {now hours : Int}
    (hclk : ∀ k, w.clock k = now) (source : String) :
    ∀ (es : List Entry) (st : St), CacheEvol w st0 st →
      (recentEntriesLoop w hours source es st).1
        = (es.filter (keepRecent now hours)).map
            (fun e => recentRecord w source e (denoteText w st0 (e.link.getD "")))
      ∧ CacheEvol w st0 (recentEntriesLoop w hours source es st).2 := by
  intro es
  induction es with
  | nil => exact fun st h => ⟨rfl, h⟩
  | cons e rest ih =>
    intro st h
    cases hts : tsOf e with
    | none =>
      have hk : keepRecent now hours e = false := by simp [keepRecent, hts]
      have hr : is_recent w (tsOf e) hours st = (false, st) := by
        simp [is_recent, hts]
      obtain ⟨ih1, ih2⟩ := ih st h
      constructor
      · simp only [recentEntriesLoop, hr, if_neg]
        rw [List.filter_cons_of_neg (by simp [hk])]
        exact ih1
      · simp only [recentEntriesLoop, hr, if_neg]
        exact ih2
    | some t =>
      have hr : is_recent w (tsOf e) hours st
          = (keepRecent now hours e, { st with tick := st.tick + 1 }) := by
        simp [is_recent, hts, hclk, keepRecent]
      have h1 : CacheEvol w st0 { st with tick := st.tick + 1 } :=
        cacheEvol_tick _ h
      by_cases hk : keepRecent now hours e = true
      · have htext := get_article_text_fst (e.link.getD "") h1
        have hevol := get_article_text_evol (e.link.getD "") h1
        obtain ⟨ih1, ih2⟩ :=
          ih (get_article_text w { st with tick := st.tick + 1 } (e.link.getD "")).2 hevol
        constructor
        · simp only [recentEntriesLoop, hr, hk, if_true]
          rw [List.filter_cons_of_pos (by simp [hk])]
          simp only [List.map_cons]
          rw [htext, ih1]
        · simp only [recentEntriesLoop, hr, hk, if_true]
          exact ih2
      · have hk' : keepRecent now hours e = false := by
          simpa using hk
        obtain ⟨ih1, ih2⟩ := ih { st with tick := st.tick + 1 } h1
        constructor
        · simp only [recentEntriesLoop, hr, hk', if_false]
          rw [List.filter_cons_of_neg (by simp [hk'])]
          exact ih1
        · simp only [recentEntriesLoop, hr, hk', if_false]
          exact ih2

theorem recentEntriesLoop_evol {w : World} {st0 : St} (hours : Int)
    (source : String) :
    ∀ (es : List Entry) (st : St), CacheEvol w st0 st →
      CacheEvol w st0 (recentEntriesLoop w hours source es st).2 := by
  intro es
  induction es with
  | nil => exact fun st h => h
  | cons e rest ih =>
    intro st h
    have h2 : CacheEvol w st0 (is_recent w (tsOf e) hours st).2 :=
      is_recent_evol _ _ h
    by_cases hr : (is_recent w (tsOf e) hours st).1
    · have hevol := get_article_text_evol (e.link.getD "") h2
      have h3 := ih _ hevol
      simp only [recentEntriesLoop, hr, if_true]
      exact h3
    · have h3 := ih _ h2
      simp only [recentEntriesLoop, hr, if_false]
      exact h3

theorem tickerEntriesLoop_spec {w : World} {st0 : St} (ticker_up source : String) :
    ∀ (es : List Entry) (st : St), CacheEvol w st0 st →
      (tickerEntriesLoop w ticker_up source es st).1
        = (es.filter (keepTicker ticker_up)).map
            (fun e => tickerRecord source e (denoteText w st0 (e.link.getD "")))
      ∧ CacheEvol w st0 (tickerEntriesLoop w ticker_up source es st).2 := by
  intro es
  induction es with
  | nil => exact fun st h => ⟨rfl, h⟩
  | cons e rest ih =>
    intro st h
    by_cases hk : keepTicker ticker_up e = true
    · have htext := get_article_text_fst (e.link.getD "") h
      have hevol := get_article_text_evol (e.link.getD "") h
      obtain ⟨ih1, ih2⟩ := ih (get_article_text w st (e.link.getD "")).2 hevol
      have hcond : strContains (strUpper (e.title.getD "" ++ " " ++ e.summary.getD "")) ticker_up = true := hk
      constructor
      · simp only [tickerEntriesLoop, hcond, if_true]
        rw [List.filter_cons_of_pos (by simp [keepTicker, hcond])]
        simp only [List.map_cons]
        rw [htext, ih1]
      · simp only [tickerEntriesLoop, hcond, if_true]
        exact ih2
    · have hcond : strContains (strUpper (e.title.getD "" ++ " " ++ e.summary.getD "")) ticker_up = false := by
        simpa [keepTicker] using hk
      obtain ⟨ih1, ih2⟩ := ih st h
      constructor
      · simp only [tickerEntriesLoop, hcond, if_false]
        rw [List.filter_cons_of_neg (by simp [keepTicker, hcond])]
        exact ih1
      · simp only [tickerEntriesLoop, hcond, if_false]
        exact ih2

theorem collect_recent_news_spec {w : World} {st0 : St} {now hours : Int}
    (hclk : ∀ k, w.clock k = now) :
    ∀ (reg : List (String × String)) (st : St), CacheEvol w st0 st →
      (collect_recent_news w hours reg st).1
        = (reg.map (pureRecentSource w st0 now hours)).flatten
      ∧ CacheEvol w st0 (collect_recent_news w hours reg st).2 := by
  intro reg
  induction reg with
  | nil => exact fun st h => ⟨rfl, h⟩
  | cons su rest ih =>
    intro st h
    have hfeed := get_feed_fst su.2 h
    have hfe := get_feed_evol su.2 h
    obtain ⟨hl1, hl2⟩ := recentEntriesLoop_spec hclk su.1
      (get_feed w st su.2).1.entries (get_feed w st su.2).2 hfe
    obtain ⟨ih1, ih2⟩ := ih _ hl2
    constructor
    · simp only [collect_recent_news, List.map_cons, List.flatten_cons]
      rw [ih1, hl1, hfeed]
      rfl
    · simp only [collect_recent_news]
      exact ih2

theorem collect_recent_news_evol {w : World} {st0 : St} (hours : Int) :
    ∀ (reg : List (String × String)) (st : St), CacheEvol w st0 st →
      CacheEvol w st0 (collect_recent_news w hours reg st).2 := by
  intro reg
  induction reg with
  | nil => exact fun st h => h
  | cons su rest ih =>
    intro st h
    have hfe := get_feed_evol su.2 h
    have hl2 := recentEntriesLoop_evol hours su.1
      (get_feed w st su.2).1.entries (get_feed w st su.2).2 hfe
    exact ih _ hl2

theorem tickerSourcesLoop_spec {w : World} {st0 : St} (ticker_up : String) :
    ∀ (reg : List (String × String)) (st : St), CacheEvol w st0 st →
      (tickerSourcesLoop w ticker_up reg st).1
        = (reg.map (pureTickerSource w st0 ticker_up)).flatten
      ∧ CacheEvol w st0 (tickerSourcesLoop w ticker_up reg st).2 := by
  intro reg
  induction reg with
  | nil => exact fun st h => ⟨rfl, h⟩
  | cons su rest ih =>
    intro st h
    have hfeed := get_feed_fst su.2 h
    have hfe := get_feed_evol su.2 h
    obtain ⟨hl1, hl2⟩ := tickerEntriesLoop_spec ticker_up su.1
      (get_feed w st su.2).1.entries (get_feed w st su.2).2 hfe
    obtain ⟨ih1, ih2⟩ := ih _ hl2
    constructor
    · simp only [tickerSourcesLoop, List.map_cons, List.flatten_cons]
      rw [ih1, hl1, hfeed]
      rfl
    · simp only [tickerSourcesLoop]
      exact ih2

theorem collect_ticker_news_spec {w : World} {st0 : St} (ticker : String)
    (reg : List (String × String)) (st : St) (h : CacheEvol w st0 st) :
    (collect_ticker_news w reg ticker st).1
      = (reg.map (pureTickerSource w st0 (strUpper ticker))).flatten
    ∧ CacheEvol w st0 (collect_ticker_news w reg ticker st).2 :=
  tickerSourcesLoop_spec (strUpper ticker) reg st h

/-- One `Recent` per-source task computes its source's pure contribution. -/
theorem collect_recent_from_feed_async_spec {w : World} {st0 : St}
    {now hours : Int} (hclk : ∀ k, w.clock k = now) (source url : String)
    (st : St) (h : CacheEvol w st0 st) :
    (collect_recent_from_feed_async w source url hours st).1
      = pureRecentSource w st0 now hours (source, url)
    ∧ CacheEvol w st0 (collect_recent_from_feed_async w source url hours st).2 := by
  have hfeed := get_feed_fst url h
  have hfe := get_feed_evol url h
  obtain ⟨hl1, hl2⟩ := recentEntriesLoop_spec hclk source
    (get_feed w st url).1.entries (get_feed w st url).2 hfe
  exact ⟨by simp only [collect_recent_from_feed_async]; rw [hl1, hfeed]; rfl,
         by simp only [collect_recent_from_feed_async]; exact hl2⟩

/-- One `ByTicker` per-source task computes its source's pure contribution. -/
theorem collect_ticker_from_feed_async_spec {w : World} {st0 : St}
    (ticker_up source url : String) (st : St) (h : CacheEvol w st0 st) :
    (collect_ticker_from_feed_async w ticker_up source url st).1
      = pureTickerSource w st0 ticker_up (source, url)
    ∧ CacheEvol w st0 (collect_ticker_from_feed_async w ticker_up source url st).2 := by
  have hfeed := get_feed_fst url h
  have hfe := get_feed_evol url h
  obtain ⟨hl1, hl2⟩ := tickerEntriesLoop_spec ticker_up source
    (get_feed w st url).1.entries (get_feed w st url).2 hfe
  exact ⟨by simp only [collect_ticker_from_feed_async]; rw [hl1, hfeed]; rfl,
         by simp only [collect_ticker_from_feed_async]; exact hl2⟩

/-- Scheduler correctness: whatever the completion order, every completed
task's recorded result is its task-determined value, the completed keys are
exactly the scheduled valid indices, and the invariant is maintained. -/
theorem runTasksSched_spec {α : Type} (tasks : List (St → α × St))
    (res : Nat → α) (Inv : St → Prop)
    (hstep : ∀ i tsk, tasks[i]? = some tsk →
      ∀ st, Inv st → (tsk st).1 = res i ∧ Inv (tsk st).2) :
    ∀ (sched : List Nat) (st : St), Inv st →
      (∀ p ∈ (runTasksSched tasks sched st).1, p.2 = res p.1)
      ∧ (runTasksSched tasks sched st).1.map Prod.fst
          = sched.filter (fun i => decide (i < tasks.length))
      ∧ Inv (runTasksSched tasks sched st).2 := by
  intro sched
  induction sched with
  | nil => exact fun st h => ⟨by simp [runTasksSched], by simp [runTasksSched], h⟩
  | cons i rest ih =>
    intro st h
    cases hi : tasks[i]? with
    | none =>
      have hlen : ¬ i < tasks.length := by
        simpa using List.getElem?_eq_none_iff.mp hi
      obtain ⟨ih1, ih2, ih3⟩ := ih st h
      refine ⟨?_, ?_, ?_⟩
      · simp only [runTasksSched, hi]
        exact ih1
      · simp only [runTasksSched, hi]
        rw [ih2, List.filter_cons_of_neg (by simpa using hlen)]
      · simp only [runTasksSched, hi]
        exact ih3
    | some tsk =>
      have hlen : i < tasks.length := by
        have := List.getElem?_eq_some_iff.mp hi
        exact this.1
      obtain ⟨hres, hinv⟩ := hstep i tsk hi st h
      obtain ⟨ih1, ih2, ih3⟩ := ih (tsk st).2 hinv
      refine ⟨?_, ?_, ?_⟩
      · simp only [runTasksSched, hi]
        intro p hp
        rcases List.mem_cons.mp hp with hp | hp
        · subst hp; exact hres
        · exact ih1 p hp
      · simp only [runTasksSched, hi, List.map_cons]
        rw [ih2, List.filter_cons_of_pos (by simpa using hlen)]
      · simp only [runTasksSched, hi]
        exact ih3

theorem lookup_of_keys {α : Type} (res : Nat → α) :
    ∀ (l : List (Nat × α)) (i : Nat), (∀ p ∈ l, p.2 = res p.1) →
      i ∈ l.map Prod.fst → l.lookup i = some (res i) := by
  intro l
  induction l with
  | nil => intro i _ hm; simp at hm
  | cons p rest ih =>
    intro i hall hm
    by_cases he : i = p.1
    · have hv : p.2 = res p.1 := hall p (List.mem_cons_self p rest)
      have hl : List.lookup i (p :: rest) = some p.2 := by
        rw [show p = (p.1, p.2) from rfl, he, lookup_cons_eq]
      rw [hl, hv, he]
    · have hm' : i ∈ rest.map Prod.fst := by
        simp only [List.map_cons, List.mem_cons] at hm
        exact hm.resolve_left he
      have hrec := ih i (fun q hq => hall q (List.mem_cons_of_mem p hq)) hm'
      calc List.lookup i (p :: rest) = List.lookup i rest := by
            rw [show p = (p.1, p.2) from rfl, lookup_cons_ne _ _ he]
        _ = some (res i) := hrec

theorem gatherAssemble_eq {α : Type} (n : Nat) (done : List (Nat × List α))
    (res : Nat → List α) (hall : ∀ p ∈ done, p.2 = res p.1)
    (hkeys : ∀ i, i < n → i ∈ done.map Prod.fst) :
    gatherAssemble n done = (List.range n).map res := by
  unfold gatherAssemble
  apply List.map_congr_left
  intro i hi
  rw [List.mem_range] at hi
  rw [lookup_of_keys res done i hall (hkeys i hi)]
  rfl

theorem range_map_eq_map {α β : Type} (f : α → β) :
    ∀ (l : List α) (g : Nat → β),
      (∀ i su, l[i]? = some su → g i = f su) →
      (List.range l.length).map g = l.map f := by
  intro l
  induction l with
  | nil => intro g _; simp
  | cons a t ih =>
    intro g hg
    have h0 : g 0 = f a := hg 0 a (by simp)
    have ht : (List.range t.length).map (fun i => g (i + 1)) = t.map f :=
      ih (fun i => g (i + 1)) (fun i su hi => hg (i + 1) su (by simpa using hi))
    simp only [List.length_cons, List.range_succ_eq_map, List.map_cons,
      List.map_map, List.map_cons]
    rw [h0]
    refine congrArg (f a :: ·) ?_
    simpa [Function.comp, Nat.succ_eq_add_one] using ht

/-- The full characterization of `collect_recent_news_async`: whenever the
clock is constant across the call and the schedule is a permutation of the
task indices, the call returns the registration-order concatenation of the
pure per-source contributions, and the caches evolve consistently. -/
theorem collect_recent_news_async_spec {w : World} {st0 : St} {now hours : Int}
    (hclk : ∀ k, w.clock k = now) (reg : List (String × String))
    (sched : List Nat) (st : St) (h : CacheEvol w st0 st)
    (hperm : sched.Perm (List.range reg.length)) :
    (collect_recent_news_async w reg hours sched st).1
      = (reg.map (pureRecentSource w st0 now hours)).flatten
    ∧ CacheEvol w st0 (collect_recent_news_async w reg hours sched st).2 := by
  classical
  set tasks := reg.map
    (fun su st => collect_recent_from_feed_async w su.1 su.2 hours st) with htasks
  have hlen : tasks.length = reg.length := by simp [htasks]
  have hstep : ∀ (i : Nat) (tsk : St → List Dict × St), tasks[i]? = some tsk →
      ∀ s, CacheEvol w st0 s →
      (tsk s).1 = (fun i => match reg[i]? with
        | some su => pureRecentSource w st0 now hours su
        | none => ([] : List Dict)) i ∧ CacheEvol w st0 (tsk s).2 := by
    intro i tsk hi s hs
    rw [htasks, List.getElem?_map] at hi
    cases hr : reg[i]? with
    | none => rw [hr] at hi; exact absurd hi (by simp)
    | some su =>
      rw [hr] at hi
      have htsk : tsk = fun st => collect_recent_from_feed_async w su.1 su.2 hours st := by
        simpa using hi.symm
      subst htsk
      obtain ⟨h1, h2⟩ := collect_recent_from_feed_async_spec hclk su.1 su.2 s hs
      exact ⟨by simpa [hr] using h1, h2⟩
  obtain ⟨hall, hkeys, hinv⟩ := runTasksSched_spec tasks
    (fun i => match reg[i]? with
      | some su => pureRecentSource w st0 now hours su
      | none => []) (CacheEvol w st0) hstep sched st h
  constructor
  · show (gatherAssemble reg.length (runTasksSched tasks sched st).1).flatten = _
    rw [gatherAssemble_eq reg.length _ (fun i => match reg[i]? with
      | some su => pureRecentSource w st0 now hours su
      | none => ([] : List Dict)) hall]
    · rw [range_map_eq_map (pureRecentSource w st0 now hours) reg
        (fun i => match reg[i]? with
          | some su => pureRecentSource w st0 now hours su
          | none => ([] : List Dict))
        (fun i su hi => by simp [hi])]
    · intro i hi
      rw [hkeys, hlen]
      exact List.mem_filter.mpr ⟨hperm.mem_iff.mpr (List.mem_range.mpr hi), by simpa using hi⟩
  · exact hinv

/-- The full characterization of `collect_ticker_news_async` (no clock is
involved): for any permutation schedule the call returns the
registration-order concatenation of the pure per-source contributions. -/
theorem collect_ticker_news_async_spec {w : World} {st0 : St}
    (ticker : String) (reg : List (String × String))
    (sched : List Nat) (st : St) (h : CacheEvol w st0 st)
    (hperm : sched.Perm (List.range reg.length)) :
    (collect_ticker_news_async w reg ticker sched st).1
      = (reg.map (pureTickerSource w st0 (strUpper ticker))).flatten
    ∧ CacheEvol w st0 (collect_ticker_news_async w reg ticker sched st).2 := by
  classical
  set tasks := reg.map
    (fun su st => collect_ticker_from_feed_async w (strUpper ticker) su.1 su.2 st) with htasks
  have hlen : tasks.length = reg.length := by simp [htasks]
  have hstep : ∀ (i : Nat) (tsk : St → List Dict × St), tasks[i]? = some tsk →
      ∀ s, CacheEvol w st0 s →
      (tsk s).1 = (fun i => match reg[i]? with
        | some su => pureTickerSource w st0 (strUpper ticker) su
        | none => ([] : List Dict)) i ∧ CacheEvol w st0 (tsk s).2 := by
    intro i tsk hi s hs
    rw [htasks, List.getElem?_map] at hi
    cases hr : reg[i]? with
    | none => rw [hr] at hi; exact absurd hi (by simp)
    | some su =>
      rw [hr] at hi
      have htsk : tsk = fun st => collect_ticker_from_feed_async w (strUpper ticker) su.1 su.2 st := by
        simpa using hi.symm
      subst htsk
      obtain ⟨h1, h2⟩ := collect_ticker_from_feed_async_spec (strUpper ticker) su.1 su.2 s hs
      exact ⟨by simpa [hr] using h1, h2⟩
  obtain ⟨hall, hkeys, hinv⟩ := runTasksSched_spec tasks
    (fun i => match reg[i]? with
      | some su => pureTickerSource w st0 (strUpper ticker) su
      | none => []) (CacheEvol w st0) hstep sched st h
  constructor
  · show (gatherAssemble reg.length (runTasksSched tasks sched st).1).flatten = _
    rw [gatherAssemble_eq reg.length _ (fun i => match reg[i]? with
      | some su => pureTickerSource w st0 (strUpper ticker) su
      | none => ([] : List Dict)) hall]
    · rw [range_map_eq_map (pureTickerSource w st0 (strUpper ticker)) reg
        (fun i => match reg[i]? with
          | some su => pureTickerSource w st0 (strUpper ticker) su
          | none => ([] : List Dict))
        (fun i su hi => by simp [hi])]
    · intro i hi
      rw [hkeys, hlen]
      exact List.mem_filter.mpr ⟨hperm.mem_iff.mpr (List.mem_range.mpr hi), by simpa using hi⟩
  · exact hinv

/-!
## Fallible feed model

The failure-semantics claim quantifies over runs in which processing one
source raises.  The only operation of the async per-source tasks that can
raise is the feed fetch/parse (`_get_article_text` catches everything), so
this second model gives the feed capability an `Except` type; the error
value stands for the raised exception.  Everything downstream mirrors the
source, which has no try/except: `_collect_*_from_feed_async` lets the
error escape, and `asyncio.gather` (without `return_exceptions`) re-raises
it to the awaiter.  The entry loops are shared with the primary model
through `WorldE.total` (they never consult the feed capability).
-/

structure WorldE where
  fetchFeed : String → Except String Feed
  fetchArticle : String → Option String
  clock : Nat → Int
  tzOffset : Int

/-- View of a fallible world for code that never fetches feeds. -/
def WorldE.total (w : WorldE) : World :=
  { fetchFeed := fun _ => ⟨[]⟩, fetchArticle := w.fetchArticle,
    clock := w.clock, tzOffset := w.tzOffset }

/-- Model of `_get_feed` when the parse may raise: the error propagates and nothing
is cached (the dict assignment never executes). -/
def get_feedE (w : WorldE) (st : St) (url : String) :
    Except String (Feed × St) :=
  match st.feedCache.lookup url with
  | some f => .ok (f, st)
  | none =>
    match w.fetchFeed url with
    | .ok f => .ok (f, { st with feedCache := (url, f) :: st.feedCache })
    | .error e => .error e

/-- Model of `_collect_recent_from_feed_async` under the fallible feed capability:
no try/except, so a feed error escapes the task. -/
def collect_recent_from_feed_asyncE (w : WorldE) (source url : String)
    (hours : Int) (st : St) : Except String (List Dict × St) :=
  match get_feedE w st url with
  | .error e => .error e
  | .ok p => .ok (recentEntriesLoop w.total hours source p.1.entries p.2)

/-- Model of `_collect_ticker_from_feed_async` under the fallible feed capability. -/
def collect_ticker_from_feed_asyncE (w : WorldE) (ticker_up source url : String)
    (st : St) : Except String (List Dict × St) :=
  match get_feedE w st url with
  | .error e => .error e
  | .ok p => .ok (tickerEntriesLoop w.total ticker_up source p.1.entries p.2)

/-- Scheduler for fallible tasks: a task that raises contributes an error
outcome and leaves the shared state as it found it (the feed error occurs
before any cache write). -/
def runTasksSchedE (tasks : List (St → Except String (List Dict × St))) :
    List Nat → St → List (Nat × Except String (List Dict)) × St
  | [], st => ([], st)
  | i :: rest, st =>
    match tasks[i]? with
    | none => runTasksSchedE tasks rest st
    | some tsk =>
      match tsk st with
      | .ok p =>
        let q := runTasksSchedE tasks rest p.2
        ((i, .ok p.1) :: q.1, q.2)
      | .error e =>
        let q := runTasksSchedE tasks rest st
        ((i, .error e) :: q.1, q.2)

/-- One combination step of gathering: a task's failure overrides the
accumulated tail. -/
def gatherStepE (done : List (Nat × Except String (List Dict)))
    (i : Nat) (acc : Except String (List (List Dict))) :
    Except String (List (List Dict)) :=
  match (done.lookup i).getD (.ok []) with
  | .error e => .error e
  | .ok r =>
    match acc with
    | .error e => .error e
    | .ok rs => .ok (r :: rs)

/-- Model of `asyncio.gather` without `return_exceptions`: if every task succeeded
the results are delivered in task order; otherwise the exception of the
first failing task (in task order in this model) is re-raised. -/
def gatherResultsE (n : Nat) (done : List (Nat × Except String (List Dict))) :
    Except String (List (List Dict)) :=
  (List.range n).foldr (gatherStepE done) (.ok [])

/-- Model of `collect_recent_news_async` under the fallible feed capability. -/
def collect_recent_news_asyncE (w : WorldE) (reg : List (String × String))
    (hours : Int) (sched : List Nat) (st : St) :
    Except String (List Dict) × St :=
  let tasks := reg.map (fun su st => collect_recent_from_feed_asyncE w su.1 su.2 hours st)
  let p := runTasksSchedE tasks sched st
  (match gatherResultsE reg.length p.1 with
   | .ok rss => .ok rss.flatten
   | .error e => .error e, p.2)

/-- Model of `collect_ticker_news_async` under the fallible feed capability. -/
def collect_ticker_news_asyncE (w : WorldE) (reg : List (String × String))
    (ticker : String) (sched : List Nat) (st : St) :
    Except String (List Dict) × St :=
  let ticker_up := strUpper ticker
  let tasks := reg.map (fun su st => collect_ticker_from_feed_asyncE w ticker_up su.1 su.2 st)
  let p := runTasksSchedE tasks sched st
  (match gatherResultsE reg.length p.1 with
   | .ok rss => .ok rss.flatten
   | .error e => .error e, p.2)

theorem is_recent_feedCache (w : World) (d : Option Int) (hours : Int) (st : St) :
    (is_recent w d hours st).2.feedCache = st.feedCache := by
  cases d <;> rfl

theorem recentEntriesLoop_feedCache (w : World) (hours : Int) (source : String) :
    ∀ (es : List Entry) (st : St),
      (recentEntriesLoop w hours source es st).2.feedCache = st.feedCache := by
  intro es
  induction es with
  | nil => intro st; rfl
  | cons e rest ih =>
    intro st
    by_cases hr : (is_recent w (tsOf e) hours st).1
    · simp [recentEntriesLoop, hr, ih, get_article_text_feedCache,
        is_recent_feedCache]
    · simp [recentEntriesLoop, hr, ih, is_recent_feedCache]

theorem tickerEntriesLoop_feedCache (w : World) (ticker_up source : String) :
    ∀ (es : List Entry) (st : St),
      (tickerEntriesLoop w ticker_up source es st).2.feedCache = st.feedCache := by
  intro es
  induction es with
  | nil => intro st; rfl
  | cons e rest ih =>
    intro st
    by_cases hc : strContains (strUpper (e.title.getD "" ++ " " ++ e.summary.getD "")) ticker_up = true
    · simp [tickerEntriesLoop, hc, ih, get_article_text_feedCache]
    · simp [tickerEntriesLoop, hc, ih]

theorem get_feedE_ok_feedCache {w : WorldE} {st : St} {url : String}
    {p : Feed × St} (h : get_feedE w st url = Except.ok p) :
    p.2.feedCache = st.feedCache ∨
    ∃ f, w.fetchFeed url = Except.ok f ∧
      p.2.feedCache = (url, f) :: st.feedCache := by
  unfold get_feedE at h
  cases hc : st.feedCache.lookup url with
  | some f =>
    rw [hc] at h
    left
    cases h
    rfl
  | none =>
    rw [hc] at h
    cases hf : w.fetchFeed url with
    | ok f =>
      rw [hf] at h
      right
      cases h
      exact ⟨f, rfl, rfl⟩
    | error e => rw [hf] at h; cases h

/-- Driving the fallible tasks: an invariant preserved by successful tasks
is maintained, and a task that always fails under the invariant leaves an
error outcome under its index whenever it was scheduled. -/
theorem runTasksSchedE_inv (tasks : List (St → Except String (List Dict × St)))
    (Inv : St → Prop)
    (hpres : ∀ (j : Nat) (tsk : St → Except String (List Dict × St)),
      tasks[j]? = some tsk → ∀ s, Inv s →
      ∀ (q : List Dict × St), tsk s = Except.ok q → Inv q.2) :
    ∀ (sched : List Nat) (st : St), Inv st →
      Inv (runTasksSchedE tasks sched st).2
      ∧ ∀ i tskb, tasks[i]? = some tskb →
          (∀ s, Inv s → ∃ e, tskb s = Except.error e) →
          i ∈ sched →
          ∃ e, (runTasksSchedE tasks sched st).1.lookup i
                = some (Except.error e) := by
  intro sched
  induction sched with
  | nil =>
    intro st h
    exact ⟨h, fun i tskb _ _ hi => absurd hi (List.not_mem_nil i)⟩
  | cons j rest ih =>
    intro st h
    cases hj : tasks[j]? with
    | none =>
      obtain ⟨ih1, ih2⟩ := ih st h
      refine ⟨by simpa only [runTasksSchedE, hj] using ih1, ?_⟩
      intro i tskb hti hbad hi
      rcases List.mem_cons.mp hi with hij | hij
      · subst hij; rw [hti] at hj; cases hj
      · simpa only [runTasksSchedE, hj] using ih2 i tskb hti hbad hij
    | some tsk =>
      cases hrun : tsk st with
      | ok p =>
        have hinvp : Inv p.2 := hpres j tsk hj st h p hrun
        obtain ⟨ih1, ih2⟩ := ih p.2 hinvp
        refine ⟨by simp only [runTasksSchedE, hj, hrun]; exact ih1, ?_⟩
        intro i tskb hti hbad hi
        rcases List.mem_cons.mp hi with hij | hij
        · subst hij
          rw [hti] at hj
          cases hj
          rcases hbad st h with ⟨e, he⟩
          rw [he] at hrun
          cases hrun
        · by_cases hije : i = j
          · subst hije
            rw [hti] at hj
            cases hj
            rcases hbad st h with ⟨e, he⟩
            rw [he] at hrun
            cases hrun
          · rcases ih2 i tskb hti hbad hij with ⟨e, he⟩
            refine ⟨e, ?_⟩
            simp only [runTasksSchedE, hj, hrun]
            rw [lookup_cons_ne _ _ hije]
            exact he
      | error e =>
        obtain ⟨ih1, ih2⟩ := ih st h
        refine ⟨by simp only [runTasksSchedE, hj, hrun]; exact ih1, ?_⟩
        intro i tskb hti hbad hi
        by_cases hije : i = j
        · subst hije
          refine ⟨e, ?_⟩
          simp only [runTasksSchedE, hj, hrun]
          exact lookup_cons_eq i (Except.error e) _
        · rcases List.mem_cons.mp hi with hij | hij
          · exact absurd hij hije
          · rcases ih2 i tskb hti hbad hij with ⟨e', he'⟩
            refine ⟨e', ?_⟩
            simp only [runTasksSchedE, hj, hrun]
            rw [lookup_cons_ne _ _ hije]
            exact he'

theorem gatherFold_error (done : List (Nat × Except String (List Dict)))
    (e : String) :
    ∀ (l : List Nat) (init : Except String (List (List Dict))) (i : Nat),
      i ∈ l → done.lookup i = some (Except.error e) →
      ∃ e', l.foldr (gatherStepE done) init = Except.error e' := by
  intro l
  induction l with
  | nil => intro init i hi; exact absurd hi (List.not_mem_nil i)
  | cons j rest ih =>
    intro init i hi hl
    rcases List.mem_cons.mp hi with hij | hij
    · subst hij
      refine ⟨e, ?_⟩
      simp only [List.foldr_cons, gatherStepE, hl]
      rfl
    · rcases ih init i hij hl with ⟨e', he'⟩
      cases hlj : (done.lookup j).getD (Except.ok []) with
      | error e2 =>
        refine ⟨e2, ?_⟩
        simp only [List.foldr_cons, gatherStepE, hlj]
      | ok r =>
        refine ⟨e', ?_⟩
        simp only [List.foldr_cons, gatherStepE, hlj, he']

theorem gatherResultsE_error (n : Nat)
    (done : List (Nat × Except String (List Dict))) (i : Nat) (e : String)
    (hi : i < n) (hl : done.lookup i = some (Except.error e)) :
    ∃ e', gatherResultsE n done = Except.error e' :=
  gatherFold_error done e (List.range n) (Except.ok [])
    i (List.mem_range.mpr hi) hl

/-!
## Timestampless-entry instrumentation

To state that `Recent` never includes an entry lacking both timestamps we
compare a run against the same run with all such entries deleted from every
feed (both in the capability and in the feed cache): the two runs produce
identical output and identically evolving article caches.
-/

/-- Delete the entries that lack both timestamps. -/
def dropNoTs (f : Feed) : Feed :=
  ⟨f.entries.filter (fun e => (tsOf e).isSome)⟩

/-- The same world with every feed's timestampless entries removed. -/
def filtWorld (w : World) : World :=
  { w with fetchFeed := fun u => dropNoTs (w.fetchFeed u) }

/-- The same state with every cached feed's timestampless entries removed. -/
def filtSt (st : St) : St :=
  { st with feedCache := st.feedCache.map (fun p => (p.1, dropNoTs p.2)) }

theorem lookup_map_value {K β γ : Type} [BEq K] (g : β → γ) :
    ∀ (l : List (K × β)) (k : K),
      (l.map (fun p => (p.1, g p.2))).lookup k = (l.lookup k).map g := by
  intro l
  induction l with
  | nil => intro k; rfl
  | cons p rest ih =>
    intro k
    have hr : List.lookup k (p :: rest)
        = match k == p.1 with
          | true => some p.2
          | false => List.lookup k rest := List.lookup_cons
    have hl : List.lookup k ((p.1, g p.2) :: rest.map (fun p => (p.1, g p.2)))
        = match k == p.1 with
          | true => some (g p.2)
          | false => List.lookup k (rest.map (fun p => (p.1, g p.2))) :=
      List.lookup_cons
    show List.lookup k ((p.1, g p.2) :: rest.map (fun p => (p.1, g p.2))) = _
    rw [hl, hr]
    cases hb : k == p.1
    · simp [ih]
    · simp

theorem get_article_text_filtSt (w : World) (st : St) (url : String) :
    get_article_text w (filtSt st) url
      = ((get_article_text w st url).1, filtSt (get_article_text w st url).2) := by
  unfold get_article_text
  by_cases hu : url = ""
  · simp [hu]
  · have hart : (filtSt st).artCache = st.artCache := rfl
    simp only [hu, if_false, hart]
    cases hc : st.artCache.lookup url with
    | some t => rfl
    | none => rfl

theorem is_recent_filtSt (w : World) (d : Option Int) (hours : Int) (st : St) :
    is_recent w d hours (filtSt st)
      = ((is_recent w d hours st).1, filtSt (is_recent w d hours st).2) := by
  cases d <;> rfl

theorem recentEntriesLoop_filt (w : World) (hours : Int) (source : String) :
    ∀ (es : List Entry) (st : St),
      recentEntriesLoop w hours source
          (es.filter (fun e => (tsOf e).isSome)) (filtSt st)
        = ((recentEntriesLoop w hours source es st).1,
           filtSt (recentEntriesLoop w hours source es st).2) := by
  intro es
  induction es with
  | nil => intro st; rfl
  | cons e rest ih =>
    intro st
    cases hts : tsOf e with
    | none =>
      have hdrop : (e :: rest).filter (fun e => (tsOf e).isSome)
          = rest.filter (fun e => (tsOf e).isSome) := by
        simp [List.filter_cons, hts]
      have hrec : is_recent w (tsOf e) hours st = (false, st) := by
        simp [is_recent, hts]
      rw [hdrop, ih]
      simp only [recentEntriesLoop, hrec]
      rfl
    | some t =>
      have hkeep : (e :: rest).filter (fun e => (tsOf e).isSome)
          = e :: rest.filter (fun e => (tsOf e).isSome) := by
        simp [List.filter_cons, hts]
      rw [hkeep]
      have hir := is_recent_filtSt w (tsOf e) hours st
      by_cases hr : (is_recent w (tsOf e) hours st).1
      · simp only [recentEntriesLoop, hir, hr, if_true]
        rw [get_article_text_filtSt, ih]
      · simp [recentEntriesLoop, hir, hr, ih]

theorem recentEntriesLoop_filtWorld (w : World) (hours : Int) (source : String) :
    ∀ (es : List Entry) (st : St),
      recentEntriesLoop (filtWorld w) hours source es st
        = recentEntriesLoop w hours source es st := by
  intro es
  induction es with
  | nil => intro st; rfl
  | cons e rest ih =>
    intro st
    have h1 : is_recent (filtWorld w) (tsOf e) hours st
        = is_recent w (tsOf e) hours st := by
      cases tsOf e <;> rfl
    have h2 : ∀ s u, get_article_text (filtWorld w) s u = get_article_text w s u :=
      fun s u => rfl
    have h3 : ∀ x t, recentRecord (filtWorld w) x e t = recentRecord w x e t :=
      fun x t => rfl
    simp only [recentEntriesLoop, h1, h2, h3, ih]

theorem get_feed_filt (w : World) (st : St) (url : String) :
    get_feed (filtWorld w) (filtSt st) url
      = (dropNoTs (get_feed w st url).1, filtSt (get_feed w st url).2) := by
  unfold get_feed
  have hfc : (filtSt st).feedCache.lookup url
      = (st.feedCache.lookup url).map dropNoTs := by
    show (st.feedCache.map (fun p => (p.1, dropNoTs p.2))).lookup url = _
    exact lookup_map_value dropNoTs st.feedCache url
  rw [hfc]
  cases hc : st.feedCache.lookup url with
  | some f => rfl
  | none => rfl

theorem collect_recent_news_filt (w : World) (hours : Int) :
    ∀ (reg : List (String × String)) (st : St),
      collect_recent_news (filtWorld w) hours reg (filtSt st)
        = ((collect_recent_news w hours reg st).1,
           filtSt (collect_recent_news w hours reg st).2) := by
  intro reg
  induction reg with
  | nil => intro st; rfl
  | cons su rest ih =>
    intro st
    simp only [collect_recent_news]
    rw [get_feed_filt, recentEntriesLoop_filtWorld]
    have hdrop : (dropNoTs (get_feed w st su.2).1).entries
        = (get_feed w st su.2).1.entries.filter (fun e => (tsOf e).isSome) := rfl
    rw [hdrop, recentEntriesLoop_filt, ih]

/-!
## Concrete sample data for the closed instances
-/

/-- The empty process state (module load time). -/
def st0 : St := { feedCache := [], artCache := [], tick := 0 }

def entAcme : Entry :=
  { published_parsed := some 0, updated_parsed := none,
    title := some "Acme Corp profits rise", summary := none, link := some "la" }

def entAapl : Entry :=
  { published_parsed := some 0, updated_parsed := none,
    title := some "AAPL hits new high", summary := none, link := some "lb" }

def wOk : World :=
  { fetchFeed := fun u => if u = "u1" then ⟨[entAcme]⟩ else ⟨[entAapl]⟩,
    fetchArticle := fun _ => some "body",
    clock := fun _ => 0, tzOffset := 0 }

def regOk : List (String × String) := [("A", "u1"), ("B", "u2")]

def recAcme : Dict :=
  [("source", "A"), ("date", "1970-01-01 00:00"),
   ("title", "Acme Corp profits rise"), ("link", "la"), ("text", "body")]

/-- A state with one feed and one article already cached. -/
def stCached : St :=
  { feedCache := [("u1", ⟨[]⟩)], artCache := [("la", "cached")], tick := 0 }

/-- A world whose article extraction always raises. -/
def wFail : World :=
  { fetchFeed := fun _ => ⟨[entAcme]⟩, fetchArticle := fun _ => none,
    clock := fun _ => 0, tzOffset := 0 }

/-!
## The claims
-/

/-- C4: resolution is memoised.  A cached link resolves from the cache with
the process state unchanged and a result that does not depend on the
extraction capability at all (the quantification over `w` expresses that no
network call is made); a first resolution of a link stores its result; and
both statements hold for feeds; finally, whole `Recent` / `ByTicker`
invocations preserve every stored article text, so repeated invocations
keep hitting the cache. -/
theorem C4_theorem :
    (∀ (w : World) (st : St) (url v : String), url ≠ "" →
       st.artCache.lookup url = some v →
       get_article_text w st url = (v, st))
    ∧ (∀ (w : World) (st : St) (url : String), url ≠ "" →
       (get_article_text w st url).2.artCache.lookup url
         = some (get_article_text w st url).1)
    ∧ (∀ (w : World) (st : St) (url : String) (f : Feed),
       st.feedCache.lookup url = some f →
       get_feed w st url = (f, st))
    ∧ (∀ (w : World) (st : St) (url : String),
       (get_feed w st url).2.feedCache.lookup url = some (get_feed w st url).1)
    ∧ (∀ (w : World) (hours : Int) (reg : List (String × String)) (st : St)
         (u v : String), st.artCache.lookup u = some v →
       (collect_recent_news w hours reg st).2.artCache.lookup u = some v)
    ∧ (∀ (w : World) (reg : List (String × String)) (ticker : String) (st : St)
         (u v : String), st.artCache.lookup u = some v →
       (collect_ticker_news w reg ticker st).2.artCache.lookup u = some v) := by
  refine ⟨?_, ?_, ?_, ?_, ?_, ?_⟩
  · intro w st url v hne hv
    unfold get_article_text
    simp [hne, hv]
  · intro w st url hne
    unfold get_article_text
    simp only [hne, if_false]
    cases hc : st.artCache.lookup url with
    | some t => simp [hc]
    | none => simp [lookup_cons_eq]
  · intro w st url f hf
    unfold get_feed
    simp [hf]
  · intro w st url
    unfold get_feed
    cases hc : st.feedCache.lookup url with
    | some f => simp [hc]
    | none => simp [lookup_cons_eq]
  · intro w hours reg st u v hv
    exact (collect_recent_news_evol hours reg st (cacheEvol_refl w st)).artMono u v hv
  · intro w reg ticker st u v hv
    exact (collect_ticker_news_spec ticker reg st (cacheEvol_refl w st)).2.artMono u v hv

/-- Closed instance of C4 on concrete data. -/
theorem C4_witness :
    get_article_text wFail stCached "la" = ("cached", stCached)
    ∧ (get_article_text wOk st0 "la").2.artCache.lookup "la"
        = some (get_article_text wOk st0 "la").1
    ∧ get_feed wFail stCached "u1" = (⟨[]⟩, stCached)
    ∧ (get_feed wOk st0 "u1").2.feedCache.lookup "u1"
        = some (get_feed wOk st0 "u1").1
    ∧ (collect_recent_news wOk 24 regOk stCached).2.artCache.lookup "la"
        = some "cached"
    ∧ (collect_ticker_news wOk regOk "AAPL" stCached).2.artCache.lookup "la"
        = some "cached" :=
  ⟨C4_theorem.1 wFail stCached "la" "cached" (by decide) (by decide),
   C4_theorem.2.1 wOk st0 "la" (by decide),
   C4_theorem.2.2.1 wFail stCached "u1" ⟨[]⟩ (by decide),
   C4_theorem.2.2.2.1 wOk st0 "u1",
   C4_theorem.2.2.2.2.1 wOk 24 regOk stCached "la" "cached" (by decide),
   C4_theorem.2.2.2.2.2 wOk regOk "AAPL" stCached "la" "cached" (by decide)⟩

/-- C5: with one fixed evaluation instant, a narrower window's results are
contained in a wider window's results: every record of `Recent(h1)` is a
record of `Recent(h2)` when `0 < h1 < h2`. -/
theorem C5_theorem (w : World) (reg : List (String × String)) (st : St)
    (h1 h2 now : Int) (hpos : 0 < h1) (hlt : h1 < h2)
    (hclk : ∀ k, w.clock k = now) (a : Dict)
    (ha : a ∈ (collect_recent_news w h1 reg st).1) :
    a ∈ (collect_recent_news w h2 reg st).1 := by
  have hs1 : (collect_recent_news w h1 reg st).1
      = (reg.map (pureRecentSource w st now h1)).flatten :=
    (collect_recent_news_spec hclk reg st (cacheEvol_refl w st)).1
  have hs2 : (collect_recent_news w h2 reg st).1
      = (reg.map (pureRecentSource w st now h2)).flatten :=
    (collect_recent_news_spec hclk reg st (cacheEvol_refl w st)).1
  have himp : ∀ e, keepRecent now h1 e = true → keepRecent now h2 e = true := by
    intro e hk
    unfold keepRecent at hk ⊢
    cases hts : tsOf e with
    | none => rw [hts] at hk; cases hk
    | some t =>
      rw [hts] at hk
      have h1t : now - h1 * 3600 ≤ t := of_decide_eq_true hk
      have hmul : h1 * 3600 ≤ h2 * 3600 :=
        mul_le_mul_of_nonneg_right (le_of_lt hlt) (by norm_num)
      exact decide_eq_true (le_trans (by linarith) h1t)
  have hsub : ∀ (rg : List (String × String)),
      List.Sublist ((rg.map (pureRecentSource w st now h1)).flatten)
        ((rg.map (pureRecentSource w st now h2)).flatten) := by
    intro rg
    induction rg with
    | nil => exact List.Sublist.refl _
    | cons su rest ih =>
      simp only [List.map_cons, List.flatten_cons, pureRecentSource]
      exact List.Sublist.append
        ((List.monotone_filter_right _ himp).map _) ih
  rw [hs1] at ha
  rw [hs2]
  exact (hsub reg).subset ha

/-- Closed instance of C5 on concrete data. -/
theorem C5_witness :
    (0 : Int) < 1 ∧ (1 : Int) < 2 ∧ (∀ k, wOk.clock k = 0)
    ∧ recAcme ∈ (collect_recent_news wOk 1 regOk st0).1
    ∧ recAcme ∈ (collect_recent_news wOk 2 regOk st0).1 :=
  ⟨by decide, by decide, fun _ => rfl, by decide,
   C5_theorem wOk regOk st0 1 2 0 (by decide) (by decide) (fun _ => rfl)
     recAcme (by decide)⟩

/-- C6: `ByTicker` is casing-insensitive: the ticker is uppercased once,
so any two tickers with the same uppercasing give identical results. -/
theorem C6_theorem (w : World) (reg : List (String × String)) (st : St)
    (t1 t2 : String) (h : strUpper t1 = strUpper t2) :
    collect_ticker_news w reg t1 st = collect_ticker_news w reg t2 st := by
  unfold collect_ticker_news
  rw [h]

/-- Closed instance of C6: AAPL versus aapl on a concrete world. -/
theorem C6_witness :
    strUpper "AAPL" = strUpper "aapl"
    ∧ collect_ticker_news wOk regOk "AAPL" st0
        = collect_ticker_news wOk regOk "aapl" st0 :=
  ⟨by decide, C6_theorem wOk regOk st0 "AAPL" "aapl" (by decide)⟩

/-- C7: `Recent` never emits an entry lacking both timestamps: deleting
every such entry from every feed (capability and cache alike) leaves the
output of `collect_recent_news` unchanged, for any clock, registry, hours
value and starting caches. -/
theorem C7_theorem (w : World) (hours : Int) (reg : List (String × String))
    (st : St) :
    (collect_recent_news (filtWorld w) hours reg (filtSt st)).1
      = (collect_recent_news w hours reg st).1 := by
  rw [collect_recent_news_filt]

/-- C8: the article resolver absorbs failures: an empty link yields `""`
at once without touching the caches, and a failing download/extraction on
an uncached link yields `""` and caches `""` for that link (the function
is total by construction: the exception never reaches the caller). -/
theorem C8_theorem :
    (∀ (w : World) (st : St), get_article_text w st "" = ("", st))
    ∧ (∀ (w : World) (st : St) (url : String), url ≠ "" →
        st.artCache.lookup url = none → w.fetchArticle url = none →
        (get_article_text w st url).1 = ""
        ∧ (get_article_text w st url).2.artCache.lookup url = some "") := by
  constructor
  · intro w st
    unfold get_article_text
    simp
  · intro w st url hne hc hf
    unfold get_article_text
    simp only [hne, if_false, hc]
    refine ⟨by simp [hf], ?_⟩
    simp only [hf]
    exact lookup_cons_eq url "" st.artCache

/-- Closed instance of C8 on concrete data. -/
theorem C8_witness :
    get_article_text wFail st0 "" = ("", st0)
    ∧ (get_article_text wFail st0 "lx").1 = ""
    ∧ (get_article_text wFail st0 "lx").2.artCache.lookup "lx" = some "" :=
  ⟨C8_theorem.1 wFail st0,
   (C8_theorem.2 wFail st0 "lx" (by decide) (by decide) rfl).1,
   (C8_theorem.2 wFail st0 "lx" (by decide) (by decide) rfl).2⟩

/-- Modelled from the spec: the inclusive recency window `[now - hours, now]`
(§4.3), for comparison with what the code computes. -/
def specRecentWindow (now hours t : Int) : Bool :=
  decide (now - hours * 3600 ≤ t) && decide (t ≤ now)

/-- An entry dated in the future: t = 90000 while the clock reads 0. -/
def entFuture : Entry :=
  { published_parsed := some 90000, updated_parsed := none,
    title := some "tomorrow", summary := none, link := some "lf" }

/-- A world whose only feed holds a single future-dated entry. -/
def wC2 : World :=
  { fetchFeed := fun _ => ⟨[entFuture]⟩,
    fetchArticle := fun _ => some "body", clock := fun _ => 0, tzOffset := 0 }

/-- One entry, dated 100 seconds before the epoch. -/
def entOld : Entry :=
  { published_parsed := some (-100), updated_parsed := none,
    title := some "same", summary := none, link := some "lo" }

/-- A world whose only feed holds the same entry twice, under a clock that
advances two hours between successive `datetime.now()` samples. -/
def wC2b : World :=
  { fetchFeed := fun _ => ⟨[entOld, entOld]⟩,
    fetchArticle := fun _ => some "body",
    clock := fun k => 7200 * (k : Int), tzOffset := 0 }

/-- C2 fails on the code in both halves.  First half: with the clock
constant at 0, `Recent(24)` emits an entry dated 90000, which is outside
the claimed window `[now - 24h, now]` (there is no upper bound in the
code).  Second half: with an advancing clock, one invocation of
`Recent(1)` over a feed holding the same entry twice emits exactly one
record — two identical entries received different verdicts, so a single
per-invocation `now` cannot explain the output. -/
theorem C2_counterexample :
    ((collect_recent_news wC2 24 [("A", "u")] st0).1.length = 1
      ∧ specRecentWindow 0 24 90000 = false)
    ∧ (collect_recent_news wC2b 1 [("B", "v")] st0).1.length = 1 :=
  ⟨⟨by decide, by decide⟩, by decide⟩

/-- C2 amended: each entry is judged against its own `datetime.now()`
sample; when all samples coincide at `now` (the spec's single instant),
an entry is emitted exactly when it carries a timestamp `t` with
`now - hours*3600 ≤ t` — a pure lower bound, with no upper bound, so
future-dated entries are emitted as well. -/
theorem C2_theorem (w : World) (reg : List (String × String)) (st : St)
    (hours now : Int) (hclk : ∀ k, w.clock k = now) :
    (collect_recent_news w hours reg st).1
      = (reg.map (pureRecentSource w st now hours)).flatten :=
  (collect_recent_news_spec hclk reg st (cacheEvol_refl w st)).1

/-- Closed instance of the amended C2 on the future-dated world. -/
theorem C2_witness :
    (∀ k, wC2.clock k = 0)
    ∧ (collect_recent_news wC2 24 [("A", "u")] st0).1
        = ([("A", "u")].map (pureRecentSource wC2 st0 0 24)).flatten :=
  ⟨fun _ => rfl, C2_theorem wC2 [("A", "u")] st0 24 0 (fun _ => rfl)⟩

/-- C3: completion order never shows through: for any permutation schedule
(and, for `Recent`, a single evaluation instant) the async collectors
return the registration-order concatenation of per-source, entry-order
contributions — the same sequence for every schedule, with no reordering
by timestamp or anything else. -/
theorem C3_theorem (w : World) (reg : List (String × String)) (st : St)
    (hours now : Int) (ticker : String) (sched : List Nat)
    (hclk : ∀ k, w.clock k = now)
    (hperm : sched.Perm (List.range reg.length)) :
    (collect_recent_news_async w reg hours sched st).1
      = (reg.map (pureRecentSource w st now hours)).flatten
    ∧ (collect_ticker_news_async w reg ticker sched st).1
      = (reg.map (pureTickerSource w st (strUpper ticker))).flatten :=
  ⟨(collect_recent_news_async_spec hclk reg sched st
      (cacheEvol_refl w st) hperm).1,
   (collect_ticker_news_async_spec ticker reg sched st
      (cacheEvol_refl w st) hperm).1⟩

/-- Closed instance of C3: the second-registered source completes first
(schedule [1, 0]), yet the output is in registration order. -/
theorem C3_witness :
    ([1, 0] : List Nat).Perm (List.range regOk.length)
    ∧ (collect_recent_news_async wOk regOk 24 [1, 0] st0).1
        = (regOk.map (pureRecentSource wOk st0 0 24)).flatten
    ∧ (collect_ticker_news_async wOk regOk "AAPL" [1, 0] st0).1
        = (regOk.map (pureTickerSource wOk st0 (strUpper "AAPL"))).flatten :=
  ⟨by decide,
   (C3_theorem wOk regOk st0 24 0 "AAPL" [1, 0] (fun _ => rfl) (by decide)).1,
   (C3_theorem wOk regOk st0 24 0 "AAPL" [1, 0] (fun _ => rfl) (by decide)).2⟩

/-- C10: under one evaluation instant and any permutation schedule, the
sync and async variants of both queries return the same sequence. -/
theorem C10_theorem (w : World) (reg : List (String × String)) (st : St)
    (hours now : Int) (ticker : String) (sched : List Nat)
    (hclk : ∀ k, w.clock k = now)
    (hperm : sched.Perm (List.range reg.length)) :
    (collect_recent_news w hours reg st).1
      = (collect_recent_news_async w reg hours sched st).1
    ∧ (collect_ticker_news w reg ticker st).1
      = (collect_ticker_news_async w reg ticker sched st).1 := by
  constructor
  · rw [(collect_recent_news_spec hclk reg st (cacheEvol_refl w st)).1,
      (collect_recent_news_async_spec hclk reg sched st
        (cacheEvol_refl w st) hperm).1]
  · rw [(collect_ticker_news_spec ticker reg st (cacheEvol_refl w st)).1,
      (collect_ticker_news_async_spec ticker reg sched st
        (cacheEvol_refl w st) hperm).1]

/-- Closed instance of C10 on concrete data. -/
theorem C10_witness :
    ([1, 0] : List Nat).Perm (List.range regOk.length)
    ∧ (collect_recent_news wOk 24 regOk st0).1
        = (collect_recent_news_async wOk regOk 24 [1, 0] st0).1
    ∧ (collect_ticker_news wOk regOk "AAPL" st0).1
        = (collect_ticker_news_async wOk regOk "AAPL" [1, 0] st0).1 :=
  ⟨by decide,
   (C10_theorem wOk regOk st0 24 0 "AAPL" [1, 0] (fun _ => rfl) (by decide)).1,
   (C10_theorem wOk regOk st0 24 0 "AAPL" [1, 0] (fun _ => rfl) (by decide)).2⟩

theorem recentEntriesLoop_mem_shape (w : World) (hours : Int) (source : String) :
    ∀ (es : List Entry) (st : St) (d : Dict),
      d ∈ (recentEntriesLoop w hours source es st).1 →
      ∃ e text, d = recentRecord w source e text := by
  intro es
  induction es with
  | nil => intro st d hd; simp [recentEntriesLoop] at hd
  | cons e rest ih =>
    intro st d hd
    by_cases hr : (is_recent w (tsOf e) hours st).1
    · simp only [recentEntriesLoop, hr, if_true, List.mem_cons] at hd
      rcases hd with hd | hd
      · exact ⟨e, _, hd⟩
      · exact ih _ _ hd
    · simp [recentEntriesLoop, hr] at hd
      exact ih _ _ hd

theorem tickerEntriesLoop_mem_shape (w : World) (ticker_up source : String) :
    ∀ (es : List Entry) (st : St) (d : Dict),
      d ∈ (tickerEntriesLoop w ticker_up source es st).1 →
      ∃ e text, d = tickerRecord source e text := by
  intro es
  induction es with
  | nil => intro st d hd; simp [tickerEntriesLoop] at hd
  | cons e rest ih =>
    intro st d hd
    by_cases hc : strContains (strUpper (e.title.getD "" ++ " " ++ e.summary.getD "")) ticker_up = true
    · simp only [tickerEntriesLoop, hc, if_true, List.mem_cons] at hd
      rcases hd with hd | hd
      · exact ⟨e, _, hd⟩
      · exact ih _ _ hd
    · simp [tickerEntriesLoop, hc] at hd
      exact ih _ _ hd

theorem collect_recent_news_mem_shape (w : World) (hours : Int) :
    ∀ (reg : List (String × String)) (st : St) (d : Dict),
      d ∈ (collect_recent_news w hours reg st).1 →
      ∃ s e text, d = recentRecord w s e text := by
  intro reg
  induction reg with
  | nil => intro st d hd; simp [collect_recent_news] at hd
  | cons su rest ih =>
    intro st d hd
    simp only [collect_recent_news, List.mem_append] at hd
    rcases hd with hd | hd
    · rcases recentEntriesLoop_mem_shape w hours su.1 _ _ d hd with ⟨e, text, he⟩
      exact ⟨su.1, e, text, he⟩
    · exact ih _ _ hd

theorem tickerSourcesLoop_mem_shape (w : World) (ticker_up : String) :
    ∀ (reg : List (String × String)) (st : St) (d : Dict),
      d ∈ (tickerSourcesLoop w ticker_up reg st).1 →
      ∃ s e text, d = tickerRecord s e text := by
  intro reg
  induction reg with
  | nil => intro st d hd; simp [tickerSourcesLoop] at hd
  | cons su rest ih =>
    intro st d hd
    simp only [tickerSourcesLoop, List.mem_append] at hd
    rcases hd with hd | hd
    · rcases tickerEntriesLoop_mem_shape w ticker_up su.1 _ _ d hd with ⟨e, text, he⟩
      exact ⟨su.1, e, text, he⟩
    · exact ih _ _ hd

/-- A world for the C9 counterexample: one feed, one AAPL entry. -/
def wC9 : World :=
  { fetchFeed := fun _ => ⟨[entAapl]⟩, fetchArticle := fun _ => some "body",
    clock := fun _ => 0, tzOffset := 0 }

/-- C9 fails on the code for `ByTicker`: its records carry no timestamp
attribute at all — here a concrete `collect_ticker_news` run emits a record
whose keys are exactly source, title, link, text, with no date key. -/
theorem C9_counterexample :
    (collect_ticker_news wC9 [("A", "u")] "AAPL" st0).1
      = [[("source", "A"), ("title", "AAPL hits new high"),
          ("link", "lb"), ("text", "body")]]
    ∧ ([("source", "A"), ("title", "AAPL hits new high"),
        ("link", "lb"), ("text", "body")] : Dict).lookup "date" = none :=
  ⟨by decide, by decide⟩

/-- C9 amended: every `Recent` record carries exactly the attributes
source, date, title, link, text (in that order), while every `ByTicker`
record carries exactly source, title, link, text — no timestamp
attribute. -/
theorem C9_theorem :
    (∀ (w : World) (hours : Int) (reg : List (String × String)) (st : St)
        (d : Dict), d ∈ (collect_recent_news w hours reg st).1 →
      d.map Prod.fst = ["source", "date", "title", "link", "text"])
    ∧ (∀ (w : World) (reg : List (String × String)) (ticker : String)
        (st : St) (d : Dict), d ∈ (collect_ticker_news w reg ticker st).1 →
      d.map Prod.fst = ["source", "title", "link", "text"]) := by
  constructor
  · intro w hours reg st d hd
    rcases collect_recent_news_mem_shape w hours reg st d hd with ⟨s, e, text, he⟩
    subst he
    rfl
  · intro w reg ticker st d hd
    rcases tickerSourcesLoop_mem_shape w (strUpper ticker) reg st d hd with ⟨s, e, text, he⟩
    subst he
    rfl

/-- Closed instance of the amended C9 on concrete data. -/
theorem C9_witness :
    recAcme ∈ (collect_recent_news wOk 24 regOk st0).1
    ∧ recAcme.map Prod.fst = ["source", "date", "title", "link", "text"]
    ∧ ([("source", "A"), ("title", "AAPL hits new high"),
        ("link", "lb"), ("text", "body")] : Dict)
        ∈ (collect_ticker_news wC9 [("A", "u")] "AAPL" st0).1
    ∧ ([("source", "A"), ("title", "AAPL hits new high"),
        ("link", "lb"), ("text", "body")] : Dict).map Prod.fst
        = ["source", "title", "link", "text"] :=
  ⟨by decide,
   C9_theorem.1 wOk 24 regOk st0 recAcme (by decide),
   by decide,
   C9_theorem.2 wC9 [("A", "u")] "AAPL" st0 _ (by decide)⟩

/-- A fallible world: feed "ub" parses fine (one fresh Acme entry), every
other feed URL raises "boom". -/
def wE1 : WorldE :=
  { fetchFeed := fun u =>
      if u = "ub" then Except.ok ⟨[entAcme]⟩ else Except.error "boom",
    fetchArticle := fun _ => some "body",
    clock := fun _ => 0, tzOffset := 0 }

/-- The record source B alone would deliver. -/
def recB : Dict :=
  [("source", "B"), ("date", "1970-01-01 00:00"),
   ("title", "Acme Corp profits rise"), ("link", "la"), ("text", "body")]

/-- C1 fails on the code: with registry [A (feed fetch raises), B (one
fresh article)], the async call returns the propagated exception — zero
articles from anyone — although B alone returns its article.  There is no
per-source catch boundary and `asyncio.gather` re-raises. -/
theorem C1_counterexample :
    (collect_recent_news_asyncE wE1 [("A", "ua"), ("B", "ub")] 24 [0, 1] st0).1
      = Except.error "boom"
    ∧ (collect_recent_news_asyncE wE1 [("B", "ub")] 24 [0] st0).1
      = Except.ok [recB] :=
  ⟨rfl, rfl⟩

/-- C1 amended: an exception while processing one source is *not* caught at
a per-source boundary: whenever some registered source's feed fetch raises
(and its URL is not already cached), both async collection calls propagate
an exception and deliver no articles at all, for every schedule that runs
the failing task. -/
theorem C1_theorem (w : WorldE) (reg : List (String × String))
    (hours : Int) (ticker : String) (sched : List Nat) (st : St)
    (i : Nat) (su : String × String) (e0 : String)
    (hreg : reg[i]? = some su)
    (hcache : st.feedCache.lookup su.2 = none)
    (hfail : w.fetchFeed su.2 = Except.error e0)
    (hsched : i ∈ sched) :
    (∃ e, (collect_recent_news_asyncE w reg hours sched st).1 = Except.error e)
    ∧ (∃ e, (collect_ticker_news_asyncE w reg ticker sched st).1 = Except.error e) := by
  have hilen : i < reg.length := (List.getElem?_eq_some_iff.mp hreg).1
  have hfeedE : ∀ s : St, s.feedCache.lookup su.2 = none →
      get_feedE w s su.2 = Except.error e0 := by
    intro s hs
    unfold get_feedE
    rw [hs, hfail]
  constructor
  · set tasks := reg.map
      (fun su st => collect_recent_from_feed_asyncE w su.1 su.2 hours st) with htasks
    have hpres : ∀ (j : Nat) (tsk : St → Except String (List Dict × St)),
        tasks[j]? = some tsk → ∀ s, s.feedCache.lookup su.2 = none →
        ∀ (q : List Dict × St), tsk s = Except.ok q →
          q.2.feedCache.lookup su.2 = none := by
      intro j tsk hj s hs q hq
      rw [htasks, List.getElem?_map] at hj
      cases hr : reg[j]? with
      | none => rw [hr] at hj; cases hj
      | some su' =>
        rw [hr] at hj
        have htsk : tsk = fun st => collect_recent_from_feed_asyncE w su'.1 su'.2 hours st := by
          simpa using hj.symm
        subst htsk
        unfold collect_recent_from_feed_asyncE at hq
        beta_reduce at hq
        cases hge : get_feedE w s su'.2 with
        | error e => rw [hge] at hq; cases hq
        | ok p =>
          rw [hge] at hq
          have hq2 : q = recentEntriesLoop w.total hours su'.1 p.1.entries p.2 :=
            (Except.ok.inj hq).symm
          have h1 : q.2.feedCache = p.2.feedCache := by
            rw [hq2]
            exact recentEntriesLoop_feedCache w.total hours su'.1 p.1.entries p.2
          rcases get_feedE_ok_feedCache hge with h2 | ⟨f, hf2, h2⟩
          · rw [h1, h2]; exact hs
          · have hne : su.2 ≠ su'.2 := by
              intro hEq
              rw [← hEq, hfail] at hf2
              cases hf2
            rw [h1, h2, lookup_cons_ne _ _ hne]
            exact hs
    have hti : tasks[i]?
        = some (fun st => collect_recent_from_feed_asyncE w su.1 su.2 hours st) := by
      rw [htasks, List.getElem?_map, hreg]
      rfl
    have hbad : ∀ s, s.feedCache.lookup su.2 = none →
        ∃ e, collect_recent_from_feed_asyncE w su.1 su.2 hours s = Except.error e := by
      intro s hs
      refine ⟨e0, ?_⟩
      unfold collect_recent_from_feed_asyncE
      rw [hfeedE s hs]
    obtain ⟨-, herr⟩ := runTasksSchedE_inv tasks
      (fun s => s.feedCache.lookup su.2 = none) hpres sched st hcache
    rcases herr i _ hti hbad hsched with ⟨e, he⟩
    rcases gatherResultsE_error reg.length _ i e hilen he with ⟨e', he'⟩
    refine ⟨e', ?_⟩
    show (match gatherResultsE reg.length (runTasksSchedE tasks sched st).1 with
          | Except.ok rss => Except.ok rss.flatten
          | Except.error e => Except.error e) = Except.error e'
    rw [he']
  · set tasks := reg.map
      (fun su st => collect_ticker_from_feed_asyncE w (strUpper ticker) su.1 su.2 st) with htasks
    have hpres : ∀ (j : Nat) (tsk : St → Except String (List Dict × St)),
        tasks[j]? = some tsk → ∀ s, s.feedCache.lookup su.2 = none →
        ∀ (q : List Dict × St), tsk s = Except.ok q →
          q.2.feedCache.lookup su.2 = none := by
      intro j tsk hj s hs q hq
      rw [htasks, List.getElem?_map] at hj
      cases hr : reg[j]? with
      | none => rw [hr] at hj; cases hj
      | some su' =>
        rw [hr] at hj
        have htsk : tsk = fun st => collect_ticker_from_feed_asyncE w (strUpper ticker) su'.1 su'.2 st := by
          simpa using hj.symm
        subst htsk
        unfold collect_ticker_from_feed_asyncE at hq
        beta_reduce at hq
        cases hge : get_feedE w s su'.2 with
        | error e => rw [hge] at hq; cases hq
        | ok p =>
          rw [hge] at hq
          have hq2 : q = tickerEntriesLoop w.total (strUpper ticker) su'.1 p.1.entries p.2 :=
            (Except.ok.inj hq).symm
          have h1 : q.2.feedCache = p.2.feedCache := by
            rw [hq2]
            exact tickerEntriesLoop_feedCache w.total (strUpper ticker) su'.1 p.1.entries p.2
          rcases get_feedE_ok_feedCache hge with h2 | ⟨f, hf2, h2⟩
          · rw [h1, h2]; exact hs
          · have hne : su.2 ≠ su'.2 := by
              intro hEq
              rw [← hEq, hfail] at hf2
              cases hf2
            rw [h1, h2, lookup_cons_ne _ _ hne]
            exact hs
    have hti : tasks[i]?
        = some (fun st => collect_ticker_from_feed_asyncE w (strUpper ticker) su.1 su.2 st) := by
      rw [htasks, List.getElem?_map, hreg]
      rfl
    have hbad : ∀ s, s.feedCache.lookup su.2 = none →
        ∃ e, collect_ticker_from_feed_asyncE w (strUpper ticker) su.1 su.2 s = Except.error e := by
      intro s hs
      refine ⟨e0, ?_⟩
      unfold collect_ticker_from_feed_asyncE
      rw [hfeedE s hs]
    obtain ⟨-, herr⟩ := runTasksSchedE_inv tasks
      (fun s => s.feedCache.lookup su.2 = none) hpres sched st hcache
    rcases herr i _ hti hbad hsched with ⟨e, he⟩
    rcases gatherResultsE_error reg.length _ i e hilen he with ⟨e', he'⟩
    refine ⟨e', ?_⟩
    show (match gatherResultsE reg.length (runTasksSchedE tasks sched st).1 with
          | Except.ok rss => Except.ok rss.flatten
          | Except.error e => Except.error e) = Except.error e'
    rw [he']

/-- Closed instance of the amended C1 on the concrete two-source world. -/
theorem C1_witness :
    ([("A", "ua"), ("B", "ub")] : List (String × String))[0]? = some ("A", "ua")
    ∧ st0.feedCache.lookup "ua" = none
    ∧ wE1.fetchFeed "ua" = Except.error "boom"
    ∧ (0 : Nat) ∈ ([0, 1] : List Nat)
    ∧ (∃ e, (collect_recent_news_asyncE wE1 [("A", "ua"), ("B", "ub")] 24 [0, 1] st0).1
        = Except.error e)
    ∧ (∃ e, (collect_ticker_news_asyncE wE1 [("A", "ua"), ("B", "ub")] "AAPL" [0, 1] st0).1
        = Except.error e) :=
  ⟨rfl, rfl, rfl, by decide,
   (C1_theorem wE1 [("A", "ua"), ("B", "ub")] 24 "AAPL" [0, 1] st0 0 ("A", "ua")
     "boom" rfl rfl rfl (by decide)).1,
   (C1_theorem wE1 [("A", "ua"), ("B", "ub")] 24 "AAPL" [0, 1] st0 0 ("A", "ua")
     "boom" rfl rfl rfl (by decide)).2⟩


